import Mathlib

/-!
# Retailer Reward Program — verification of the core calculation engine

Shallow embedding of `calculateRewardPoints` and `calculateUserRewards`
(source: `src/utils/calculateRewards.js` and the duplicated copy holding the
aggregator), together with the list helpers they rely on.

Modelling conventions:
* A JavaScript number that can be `NaN` is modelled as an `Option`:
  `none` is `NaN`.  Prices are `Option ℚ` (the fractional values exercised by
  the code are exactly representable; infinities are outside the model);
  parsed date components are `Option ℤ`.
* JS comparison operators (`<`, `>`, `<=`, `>=`, `===`) on possibly-NaN
  numbers are all false when either operand is `NaN`; they are embedded as
  the `j*` Boolean functions below.
* `new Date(y, m, d)` followed by `getFullYear/getMonth/getDate` is modelled
  by `jsDateComponents`: NaN anywhere gives an invalid date (all components
  NaN); otherwise the triple is normalised exactly as the ECMAScript `MakeDay`
  algorithm does (month overflow via floored division, day overflow by
  carrying through calendar months, the 0–99 → 1900+y year rule).  The
  overflow of the Date range beyond ±275760 years is not modelled.
* `String.prototype.split("-")` and `parseInt(·, 10)` are embedded as
  `jsSplitDash` and `jsParseInt`; an out-of-range index access (`undefined`)
  parses to `NaN`.
* The `totalRewardPoints` accumulator is a plain `{}`, so property reads
  walk the `Object.prototype` chain: an absent key named like an inherited
  member (`toString`, `constructor`, …) reads back a truthy function, and
  `+=` then concatenates it into a string; an assignment to `__proto__`
  invokes the inherited accessor setter, which ignores a non-object value
  and creates no own property.  `objGet`/`objSet`/`jsEntries` model this,
  with object values in `JsVal` (number, string, or inherited member).
-/

namespace RewardProgram

/-- A JS number that may be `NaN` (`none`), integer-valued. -/
abbrev JNum := Option Int

/-- JS `a > b` on possibly-NaN numbers: false when either side is `NaN`. -/
def jgt : JNum → JNum → Bool
  | some a, some b => a > b
  | _, _ => false

/-- JS `a < b` on possibly-NaN numbers. -/
def jlt : JNum → JNum → Bool
  | some a, some b => a < b
  | _, _ => false

/-- JS `a >= b` on possibly-NaN numbers. -/
def jge : JNum → JNum → Bool
  | some a, some b => a ≥ b
  | _, _ => false

/-- JS `a <= b` on possibly-NaN numbers. -/
def jle : JNum → JNum → Bool
  | some a, some b => a ≤ b
  | _, _ => false

/-- JS `a === b` on possibly-NaN numbers: `NaN === NaN` is false. -/
def jeq : JNum → JNum → Bool
  | some a, some b => a == b
  | _, _ => false

/-- JS addition where `NaN` is absorbing. -/
def jadd : JNum → Int → JNum
  | some a, b => some (a + b)
  | none, _ => none

/-- `calculateRewardPoints` (Point Calculator).

```js
if (isNaN(price)) return 0;
let points = 0;
const wholePrice = Math.floor(price);
if (wholePrice > 100) { points += (wholePrice - 100) * 2; points += 50; }
else if (wholePrice > 50) { points += (wholePrice - 50) * 1; }
return points;
```
-/
def calculateRewardPoints (price : Option ℚ) : Int :=
  match price with
  | none => 0
  | some p =>
    let wholePrice : Int := ⌊p⌋
    if wholePrice > 100 then (wholePrice - 100) * 2 + 50
    else if wholePrice > 50 then (wholePrice - 50) * 1
    else 0

/-! ## String splitting and `parseInt` -/

/-- `String.prototype.split` with a one-character separator, on character
lists.  Splitting the empty string yields `[""]`, adjacent separators yield
empty fields, as in JS. -/
def splitOnChar (sep : Char) : List Char → List (List Char)
  | [] => [[]]
  | c :: rest =>
    match splitOnChar sep rest with
    | [] => [[]]
    | g :: gs => if c = sep then [] :: g :: gs else (c :: g) :: gs

/-- `date.split("-")` of the source. -/
def jsSplitDash (s : String) : List String :=
  (splitOnChar '-' s.data).map String.mk

/-- Value of a digit string (digits already checked). -/
def digitsVal (cs : List Char) : Nat :=
  cs.foldl (fun n c => 10 * n + (c.toNat - 48)) 0

/-- JS whitespace stripped by `parseInt`. -/
def isJsWhitespace (c : Char) : Bool :=
  c = ' ' || c = '\t' || c = '\n' || c = '\r' || c = '\x0b' || c = '\x0c'

/-- Longest decimal-digit prefix; `none` (`NaN`) when there is none. -/
def digitsPrefixVal (cs : List Char) : Option Nat :=
  match cs.takeWhile Char.isDigit with
  | [] => none
  | ds => some (digitsVal ds)

/-- `parseInt(s, 10)`: strip leading whitespace, optional sign, then the
longest digit prefix; `NaN` when no digit is found. -/
def jsParseInt (s : String) : JNum :=
  match s.data.dropWhile isJsWhitespace with
  | '-' :: rest => (digitsPrefixVal rest).map (fun n => -(n : Int))
  | '+' :: rest => (digitsPrefixVal rest).map (fun n => (n : Int))
  | cs => (digitsPrefixVal cs).map (fun n => (n : Int))

/-- `parseInt(parts[i], 10)`: an out-of-range access gives `undefined`,
which `parseInt` turns into `NaN`. -/
def jsParseIntAt (parts : List String) (i : Nat) : JNum :=
  match parts.get? i with
  | none => none
  | some s => jsParseInt s

/-! ## The `Date` model -/

/-- ECMAScript leap-year rule (mathematical modulo, as in `DaysInYear`). -/
def isLeapYear (y : Int) : Bool :=
  y % 4 == 0 && (y % 100 != 0 || y % 400 == 0)

/-- Days in month `m` (1-based) of year `y`. -/
def daysInMonth (y m : Int) : Int :=
  if m == 2 then (if isLeapYear y then 29 else 28)
  else if m == 4 || m == 6 || m == 9 || m == 11 then 30
  else 31

/-- Carry a too-large day count forward through the calendar, month by
month (`m` is 1-based).  The fuel is an upper bound on the number of carry
steps; callers supply enough that it is never exhausted. -/
def carryUp : Nat → Int → Int → Int → Int × Int × Int
  | 0, y, m, d => (y, m, d)
  | fuel + 1, y, m, d =>
    if d > daysInMonth y m then
      carryUp fuel (if m == 12 then y + 1 else y) (if m == 12 then 1 else m + 1)
        (d - daysInMonth y m)
    else (y, m, d)

/-- Borrow a non-positive day count backward through the calendar. -/
def borrowDown : Nat → Int → Int → Int → Int × Int × Int
  | 0, y, m, d => (y, m, d)
  | fuel + 1, y, m, d =>
    if d < 1 then
      let y' := if m == 1 then y - 1 else y
      let m' := if m == 1 then 12 else m - 1
      borrowDown fuel y' m' (d + daysInMonth y' m')
    else (y, m, d)

/-- Components `(getFullYear, getMonth, getDate)` of `new Date(y, m, d)`
(`m` a 0-based month index): `NaN` in any argument gives an invalid date;
otherwise ECMAScript `MakeDay` normalisation — two-digit years map to
1900+y, month overflow by floored division, day overflow by calendar
carry/borrow. -/
def jsDateComponents (y m d : JNum) : JNum × JNum × JNum :=
  match y, m, d with
  | some y, some m, some d =>
    let y0 := if 0 ≤ y ∧ y ≤ 99 then 1900 + y else y
    let ym := y0 + m.fdiv 12
    let mn := m.emod 12
    let b := borrowDown (d.natAbs + 1) ym (mn + 1) d
    let c := carryUp (b.2.2.natAbs + 1) b.1 b.2.1 b.2.2
    (some c.1, some (c.2.1 - 1), some c.2.2)
  | _, _, _ => (none, none, none)

/-! ## Data model -/

/-- A transaction record (fields from the source's `Transaction` typedef). -/
structure Transaction where
  customerId : Int
  name : String
  date : String
  price : Option ℚ
  rewardPoints : Int
deriving DecidableEq

/-- A `UserReward` (the source's `MonthlyReward`): the `month` and `year`
fields are the numbers parsed from the date string (so they are `NaN` for a
record created from an unparsable date). -/
structure UserReward where
  customerId : Int
  name : String
  month : JNum
  year : JNum
  totalPoints : Int
deriving DecidableEq

/-- A JS value stored in, or read from, the `totalRewardPoints` object:
an own number or string, or a value inherited from `Object.prototype`
(a built-in method, or the `Object.prototype` object itself when reading
`__proto__`). -/
inductive JsVal where
  | num (n : Int)
  | str (s : String)
  | protoFn (name : String)
  | protoObj
deriving DecidableEq

/-- The own data-property names of `Object.prototype` (writable built-in
methods; an assignment shadows them with an own property, a read of an
absent key named like one returns the inherited function). -/
def protoDataProps : List String :=
  ["constructor", "hasOwnProperty", "isPrototypeOf", "propertyIsEnumerable",
   "toLocaleString", "toString", "valueOf",
   "__defineGetter__", "__defineSetter__", "__lookupGetter__", "__lookupSetter__"]

/-- All `Object.prototype` property names a plain object inherits:
the data properties plus the `__proto__` accessor. -/
def protoPropNames : List String :=
  "__proto__" :: protoDataProps

/-- ECMAScript `ToString` of the values above (the function rendering is
the V8 one; no theorem depends on its exact text). -/
def jsToString : JsVal → String
  | .num n => toString n
  | .str s => s
  | .protoFn name => "function " ++ name ++ "() \x7b [native code] \x7d"
  | .protoObj => "[object Object]"

/-- JS `v + points` for an integer `points`: numeric addition on a number,
string concatenation after `ToString` otherwise. -/
def jsAdd (v : JsVal) (pts : Int) : JsVal :=
  match v with
  | .num n => .num (n + pts)
  | v => .str (jsToString v ++ toString pts)

/-- JS truthiness of a value: `0` and `""` are falsy, functions and
objects truthy. -/
def valTruthy : JsVal → Bool
  | .num n => n != 0
  | .str s => decide (s ≠ "")
  | .protoFn _ => true
  | .protoObj => true

/-- A `TotalReward` record; `totalPoints` is whatever JS value the totals
object ends up holding (a number, or a concatenated string for a name that
shadows an `Object.prototype` method). -/
structure TotalReward where
  name : String
  totalPoints : JsVal
deriving DecidableEq

/-- The components of a JS `Date` object passed as `start`/`end`
(`getFullYear`, 0-based `getMonth`, `getDate`). -/
structure JsDate where
  year : Int
  monthIndex : Int
  day : Int
deriving DecidableEq

/-! ## The Reward Aggregator -/

/-- The range filter inside `calculateUserRewards`'s reduce callback:
parse the date string, build the `Date`, and compare its components with
the bounds (`!startDateObj || ... || ...` / `!endDateObj || ... || ...`). -/
def passesFilter (start stop : Option JsDate) (t : Transaction) : Bool :=
  let dateParts := jsSplitDash t.date
  let year := jsParseIntAt dateParts 0
  let month := jadd (jsParseIntAt dateParts 1) (-1)
  let day := jsParseIntAt dateParts 2
  let c := jsDateComponents year month day
  let transactionYear := c.1
  let transactionMonth := c.2.1
  let transactionDay := c.2.2
  let isAfterOrEqualStart :=
    match start with
    | none => true
    | some s =>
      jgt transactionYear (some s.year) ||
      (jeq transactionYear (some s.year) && jgt transactionMonth (some s.monthIndex)) ||
      (jeq transactionYear (some s.year) && jeq transactionMonth (some s.monthIndex) &&
        jge transactionDay (some s.day))
  let isBeforeOrEqualEnd :=
    match stop with
    | none => true
    | some e =>
      jlt transactionYear (some e.year) ||
      (jeq transactionYear (some e.year) && jlt transactionMonth (some e.monthIndex)) ||
      (jeq transactionYear (some e.year) && jeq transactionMonth (some e.monthIndex) &&
        jle transactionDay (some e.day))
  isAfterOrEqualStart && isBeforeOrEqualEnd

/-- JS `Array.prototype.findIndex`. -/
def jsFindIndex (p : α → Bool) : List α → Option Nat
  | [] => none
  | a :: l => if p a then some 0 else (jsFindIndex p l).map (· + 1)

/-- The `month + 1` stored in a monthly record, where
`month = parseInt(dateParts[1], 10) - 1` (`NaN` for an unparsable part). -/
def txMonthField (t : Transaction) : JNum :=
  jadd (jadd (jsParseIntAt (jsSplitDash t.date) 1) (-1)) 1

/-- The `year` stored in a monthly record: `parseInt(dateParts[0], 10)`. -/
def txYearField (t : Transaction) : JNum :=
  jsParseIntAt (jsSplitDash t.date) 0

/-- The `findIndex` test of the reduce callback:
`user.customerId === transaction.customerId && user.month === month + 1 &&
user.year === year` (a `===` comparison, so `NaN` keys never match). -/
def monthlyPred (t : Transaction) (u : UserReward) : Bool :=
  u.customerId == t.customerId && jeq u.month (txMonthField t) &&
    jeq u.year (txYearField t)

/-- The fresh record pushed when no accumulator entry matches the key. -/
def newMonthly (t : Transaction) : UserReward :=
  { customerId := t.customerId, name := t.name, month := txMonthField t,
    year := txYearField t, totalPoints := t.rewardPoints }

/-- `acc[i].totalPoints += transaction.rewardPoints`. -/
def bumpPoints (pts : Int) (u : UserReward) : UserReward :=
  { u with totalPoints := u.totalPoints + pts }

/-- The accumulator update of the reduce callback: `findIndex` on the
`(customerId, month, year)` key, then either `totalPoints +=` at the found
index or `push` of a new record seeded with this transaction's `name` and
`rewardPoints`. -/
def upsertMonthly (acc : List UserReward) (t : Transaction) : List UserReward :=
  match jsFindIndex (monthlyPred t) acc with
  | some i => acc.set i (bumpPoints t.rewardPoints (acc.getD i ⟨0, "", none, none, 0⟩))
  | none => acc ++ [newMonthly t]

/-- One step of the monthly-grouping reduce. -/
def rewardStep (start stop : Option JsDate) (acc : List UserReward)
    (t : Transaction) : List UserReward :=
  if passesFilter start stop t then upsertMonthly acc t else acc

/-- The value inherited from `Object.prototype` when a plain object has no
own property named `k` (`none` is JS `undefined`). -/
def protoLookup (k : String) : Option JsVal :=
  if k = "__proto__" then some .protoObj
  else if k ∈ protoDataProps then some (.protoFn k) else none

/-- Reading `totalRewardPoints[k]` (own insertion-ordered entries first,
then the `Object.prototype` chain). -/
def objGet (o : List (String × JsVal)) (k : String) : Option JsVal :=
  match (o.find? (fun p => p.1 == k)).map (·.2) with
  | some v => some v
  | none => protoLookup k

/-- Assigning `totalRewardPoints[k] = v`: overwrite an own key in place;
for a fresh key, appending an own property — except `"__proto__"`, whose
inherited accessor setter intercepts the assignment and ignores a
non-object value, creating no own property. -/
def objSet (o : List (String × JsVal)) (k : String) (v : JsVal) : List (String × JsVal) :=
  if (o.find? (fun p => p.1 == k)).isSome then
    o.map (fun p => if p.1 == k then (k, v) else p)
  else if k = "__proto__" then o
  else o ++ [(k, v)]

/-- JS truthiness of the read `totalRewardPoints[name]`. -/
def jsTruthy : Option JsVal → Bool
  | none => false
  | some v => valTruthy v

/-- One step of the total reduction (`rewards.forEach`):
`if (totalRewardPoints[reward.name]) { += } else { = }`. -/
def totalsStep (o : List (String × JsVal)) (r : UserReward) : List (String × JsVal) :=
  if jsTruthy (objGet o r.name) then
    objSet o r.name (jsAdd ((objGet o r.name).getD (.num 0)) r.totalPoints)
  else
    objSet o r.name (.num r.totalPoints)

/-- Is `s` an ECMAScript array-index property key (canonical decimal string
of an integer `< 2^32 - 1`)?  Such keys are enumerated first, in ascending
numeric order, by `Object.entries`. -/
def isArrayIndexKey (s : String) : Option Nat :=
  let cs := s.data
  if cs.isEmpty then none
  else if ¬ cs.all Char.isDigit then none
  else if cs.head? = some '0' ∧ cs.length ≠ 1 then none
  else if digitsVal cs < 4294967295 then some (digitsVal cs) else none

/-- Order used for the array-index keys of an object. -/
def arrIdxLe (p q : String × JsVal) : Prop :=
  (isArrayIndexKey p.1).getD 0 ≤ (isArrayIndexKey q.1).getD 0

instance : DecidableRel arrIdxLe := fun p q =>
  inferInstanceAs (Decidable ((isArrayIndexKey p.1).getD 0 ≤ (isArrayIndexKey q.1).getD 0))

/-- `Object.entries`: own enumerable entries only (inherited
`Object.prototype` members never appear), array-index keys first in
ascending numeric order, then the remaining string keys in insertion
order. -/
def jsEntries (o : List (String × JsVal)) : List (String × JsVal) :=
  (o.filter (fun p => (isArrayIndexKey p.1).isSome)).insertionSort arrIdxLe ++
    o.filter (fun p => !(isArrayIndexKey p.1).isSome)

/-- `calculateUserRewards` (Reward Aggregator): a left-to-right reduce
building the monthly rewards, then a pass over the monthly list building the
name-keyed totals object, emitted through `Object.entries`. -/
def calculateUserRewards (transactions : List Transaction)
    (start stop : Option JsDate) : List UserReward × List TotalReward :=
  let rewards := transactions.foldl (rewardStep start stop) []
  let totalRewardPoints := rewards.foldl totalsStep []
  let totalRewardsArray :=
    (jsEntries totalRewardPoints).map (fun p => TotalReward.mk p.1 p.2)
  (rewards, totalRewardsArray)

/-! ## Specification-side definitions

These follow the spec's wording and are compared with the embedded code. -/

/-- Does the transaction's date string parse into three numeric parts
(year, month, day all non-`NaN`)? -/
def dateParses (t : Transaction) : Bool :=
  (jsParseIntAt (jsSplitDash t.date) 0).isSome &&
    (jsParseIntAt (jsSplitDash t.date) 1).isSome &&
    (jsParseIntAt (jsSplitDash t.date) 2).isSome

/-- Lexicographic `≤` on human-readable `(year, month, day)` triples, the
comparison the spec prescribes for the range filter. -/
def tripleLE (a b : Int × Int × Int) : Bool :=
  a.1 < b.1 ||
    (a.1 == b.1 && (a.2.1 < b.2.1 || (a.2.1 == b.2.1 && a.2.2 ≤ b.2.2)))

/-- The range predicate as the spec states it: `start` absent or transaction
triple ≥ start triple, and `end` absent or transaction triple ≤ end triple
(a `JsDate`'s human-readable month is `monthIndex + 1`). -/
def specPasses (start stop : Option JsDate) (y m d : Int) : Bool :=
  (match start with
   | none => true
   | some s => tripleLE (s.year, s.monthIndex + 1, s.day) (y, m, d)) &&
  (match stop with
   | none => true
   | some e => tripleLE (y, m, d) (e.year, e.monthIndex + 1, e.day))

/-- The date string parses to exactly the components `(y, m, d)`. -/
def parsesToDate (s : String) (y m d : Int) : Prop :=
  jsParseIntAt (jsSplitDash s) 0 = some y ∧
    jsParseIntAt (jsSplitDash s) 1 = some m ∧
    jsParseIntAt (jsSplitDash s) 2 = some d

/-- `(y, m, d)` is a well-formed calendar date of the documented
`YYYY-MM-DD` shape (four-digit year, so outside the 0–99 `Date` quirk). -/
def validParsedDate (y m d : Int) : Prop :=
  100 ≤ y ∧ 1 ≤ m ∧ m ≤ 12 ∧ 1 ≤ d ∧ d ≤ daysInMonth y m

/-- First occurrence of each distinct element, in order of first
occurrence; `seen` carries the elements already emitted. -/
def firstDedupAux [DecidableEq α] (seen : List α) : List α → List α
  | [] => []
  | a :: l => if a ∈ seen then firstDedupAux seen l else a :: firstDedupAux (a :: seen) l

/-- The distinct elements of a list, in order of first occurrence. -/
def firstOccurrences [DecidableEq α] (l : List α) : List α :=
  firstDedupAux [] l

/-- The grouping key of a transaction: `(customerId, month + 1, year)` with
the parsed (possibly `NaN`) month and year. -/
def txKey (t : Transaction) : Int × JNum × JNum :=
  (t.customerId, txMonthField t, txYearField t)

/-- The key stored in a monthly record. -/
def keyFields (u : UserReward) : Int × JNum × JNum :=
  (u.customerId, u.month, u.year)

/-- Sum of `rewardPoints` over the transactions with a given key. -/
def sumPointsFor (ts : List Transaction) (k : Int × JNum × JNum) : Int :=
  ((ts.filter (fun t => txKey t = k)).map Transaction.rewardPoints).sum

/-- Name of the first transaction with a given key (`""` if there is
none). -/
def firstNameFor (ts : List Transaction) (k : Int × JNum × JNum) : String :=
  match ts.find? (fun t => txKey t = k) with
  | some t => t.name
  | none => ""

/-- The monthly record a key should hold: key fields, first-seen name,
summed points. -/
def monthlyRecFor (ts : List Transaction) (k : Int × JNum × JNum) : UserReward :=
  ⟨k.1, firstNameFor ts k, k.2.1, k.2.2, sumPointsFor ts k⟩

/-- The monthly grouping as the spec states it: one record per distinct
key, in order of first occurrence, summed points, first-seen name. -/
def monthlySpec (ts : List Transaction) : List UserReward :=
  (firstOccurrences (ts.map txKey)).map (monthlyRecFor ts)

/-- The sum of the monthly points of a given name. -/
def sumForName (rs : List UserReward) (n : String) : Int :=
  ((rs.filter (fun u => u.name == n)).map UserReward.totalPoints).sum

/-- The totals entry a name should hold: the numeric sum of the monthly
points of that name. -/
def totalsEntryFor (rs : List UserReward) (n : String) : String × JsVal :=
  (n, .num (sumForName rs n))

/-- The totals object as the spec states it: one entry per distinct name in
first-occurrence order. -/
def totalsSpecObj (rs : List UserReward) : List (String × JsVal) :=
  (firstOccurrences (rs.map UserReward.name)).map (totalsEntryFor rs)

/-- The integer carried by a numeric JS value (0 otherwise). -/
def jsValAsInt : JsVal → Int
  | .num n => n
  | _ => 0

/-- Recursive form of `upsertMonthly` (bump the first matching record,
append when none matches); proved equal to the `findIndex`/`set` form. -/
def upsertRec (p : UserReward → Bool) (nr : UserReward) (pts : Int) :
    List UserReward → List UserReward
  | [] => [nr]
  | u :: rest => if p u then bumpPoints pts u :: rest else u :: upsertRec p nr pts rest

/-! ## Concrete inputs used by the individual properties -/

/-- The §8.6 grouping example of the spec. -/
def ex86 : List Transaction :=
  [⟨1, "Alice", "2024-01-05", none, 10⟩,
   ⟨1, "Alice", "2024-01-20", none, 5⟩,
   ⟨1, "Alice", "2024-02-01", none, 7⟩,
   ⟨2, "Bob", "2024-01-10", none, 3⟩]

/-- A transaction whose date string does not parse. -/
def exBadDate : Transaction := ⟨1, "X", "bad-date", none, 5⟩

/-- Two customers sharing the display name `"Alice"`. -/
def exSharedName : List Transaction :=
  [⟨1, "Alice", "2024-01-05", none, 10⟩,
   ⟨2, "Alice", "2024-02-06", none, 5⟩]

/-- Two customers whose display names are numeric strings. -/
def exNumericNames : List Transaction :=
  [⟨1, "2", "2024-01-05", none, 10⟩,
   ⟨2, "1", "2024-01-06", none, 5⟩]

/-- A customer whose display name collides with the inherited
`__proto__` accessor. -/
def exProtoName : List Transaction :=
  [⟨1, "__proto__", "2024-01-05", none, 7⟩]

/-! ## C1, C6, C7 — the Point Calculator -/

/-- C1: for every numeric price, `calculateRewardPoints` equals the tiered
formula on `p = floor(price)`: if `p > 100` then `(p - 100) * 2 + 50`, else
if `p > 50` then `p - 50`, else `0`; in particular `f(0)=0`, `f(50)=0`,
`f(50.99)=0`, `f(51)=1`, `f(100)=50`, `f(100.5)=50`, `f(101)=52`,
`f(120)=90`. -/
theorem c1_point_tiers :
    (∀ q : ℚ, calculateRewardPoints (some q) =
      if 100 < ⌊q⌋ then (⌊q⌋ - 100) * 2 + 50
      else if 50 < ⌊q⌋ then ⌊q⌋ - 50 else 0) ∧
    calculateRewardPoints (some 0) = 0 ∧
    calculateRewardPoints (some 50) = 0 ∧
    calculateRewardPoints (some (5099/100)) = 0 ∧
    calculateRewardPoints (some 51) = 1 ∧
    calculateRewardPoints (some 100) = 50 ∧
    calculateRewardPoints (some (201/2)) = 50 ∧
    calculateRewardPoints (some 101) = 52 ∧
    calculateRewardPoints (some 120) = 90 := by
  refine ⟨fun q => by simp [calculateRewardPoints], ?_, ?_, ?_, ?_, ?_, ?_, ?_, ?_⟩ <;>
    norm_num [calculateRewardPoints]

/-- C6: for all prices `0 ≤ a ≤ b`, the reward points of `a` are at most
those of `b` — points never decrease as price increases. -/
theorem c6_points_monotone (a b : ℚ) (h0 : 0 ≤ a) (hab : a ≤ b) :
    calculateRewardPoints (some a) ≤ calculateRewardPoints (some b) := by
  have hf : ⌊a⌋ ≤ ⌊b⌋ := Int.floor_le_floor hab
  simp only [calculateRewardPoints]
  split_ifs <;> omega

/-- Witness for C6 at the concrete prices 3 and 7. -/
theorem c6_points_monotone_witness :
    (0 : ℚ) ≤ 3 ∧ (3 : ℚ) ≤ 7 ∧
      calculateRewardPoints (some 3) ≤ calculateRewardPoints (some 7) :=
  ⟨by norm_num, by norm_num, c6_points_monotone 3 7 (by norm_num) (by norm_num)⟩

/-- C7: a `NaN` price silently yields 0 points, and the caller cannot tell
this fallback apart from a genuine zero-point price (such as 30) by the
return value. -/
theorem c7_invalid_price_zero :
    calculateRewardPoints none = 0 ∧
    calculateRewardPoints (some 30) = 0 ∧
    calculateRewardPoints none = calculateRewardPoints (some 30) := by
  refine ⟨rfl, ?_, ?_⟩ <;> norm_num [calculateRewardPoints]

/-! ## C2 — malformed dates -/

/-- C2 counterexample: with the unbounded range `start = end = null`, a
transaction whose date string does not parse is **not** excluded — it
produces a monthly record (with `NaN` month and year) and a totals entry,
contradicting the claim at this input. -/
theorem c2_counterexample :
    dateParses exBadDate = false ∧
    calculateUserRewards [exBadDate] none none =
      ([⟨1, "X", none, none, 5⟩], [⟨"X", JsVal.num 5⟩]) := by
  constructor
  · decide
  · decide

/-- An unparsable date gives an invalid `Date`: all components `NaN`. -/
lemma comps_none_of_not_parses (t : Transaction) (h : dateParses t = false) :
    jsDateComponents (jsParseIntAt (jsSplitDash t.date) 0)
      (jadd (jsParseIntAt (jsSplitDash t.date) 1) (-1))
      (jsParseIntAt (jsSplitDash t.date) 2) = (none, none, none) := by
  cases h0 : jsParseIntAt (jsSplitDash t.date) 0 with
  | none => cases jadd (jsParseIntAt (jsSplitDash t.date) 1) (-1) <;>
      cases jsParseIntAt (jsSplitDash t.date) 2 <;> rfl
  | some y =>
    cases h1 : jsParseIntAt (jsSplitDash t.date) 1 with
    | none => cases jsParseIntAt (jsSplitDash t.date) 2 <;> rfl
    | some m =>
      cases h2 : jsParseIntAt (jsSplitDash t.date) 2 with
      | none => rfl
      | some d => simp [dateParses, h0, h1, h2] at h

/-- A transaction with an unparsable date fails the range filter as soon as
one of the bounds is present (every `NaN` comparison is false). -/
lemma passesFilter_false_of_not_parses (start stop : Option JsDate)
    (t : Transaction) (hb : start ≠ none ∨ stop ≠ none)
    (h : dateParses t = false) : passesFilter start stop t = false := by
  simp only [passesFilter]
  rw [comps_none_of_not_parses t h]
  rcases hb with hb | hb
  · match start, hb with
    | some s, _ => simp [jgt, jeq, jge]
  · match stop, hb with
    | some e, _ => cases start with
      | none => simp [jlt, jeq, jle]
      | some s => simp [jgt, jeq, jge, jlt, jle]

/-- With at least one bound present, the monthly reduce ignores every
transaction whose date does not parse. -/
lemma foldl_rewardStep_filter_parses (start stop : Option JsDate)
    (hb : start ≠ none ∨ stop ≠ none) :
    ∀ (ts : List Transaction) (acc : List UserReward),
      ts.foldl (rewardStep start stop) acc =
        (ts.filter dateParses).foldl (rewardStep start stop) acc := by
  intro ts
  induction ts with
  | nil => intro acc; rfl
  | cons t ts ih =>
    intro acc
    by_cases h : dateParses t = true
    · simp only [List.foldl_cons, List.filter_cons, h, if_pos]
      exact ih _
    · have hf : dateParses t = false := by simpa using h
      have hp := passesFilter_false_of_not_parses start stop t hb hf
      simp only [List.foldl_cons, List.filter_cons, hf, Bool.false_eq_true, if_neg,
        rewardStep, hp, ite_false]
      exact ih _

/-- C2 (amended): whenever the range has at least one bound, every
transaction whose date string does not parse is excluded from both
aggregations — the result is the same as if those records were removed
from the input.  (With `start = end = null` the code instead lets such a
record through; see the counterexample.) -/
theorem c2_malformed_excluded_with_bound (ts : List Transaction)
    (start stop : Option JsDate) (hb : start ≠ none ∨ stop ≠ none) :
    calculateUserRewards ts start stop =
      calculateUserRewards (ts.filter dateParses) start stop := by
  unfold calculateUserRewards
  rw [foldl_rewardStep_filter_parses start stop hb ts []]

/-- Witness for C2 (amended) at a concrete malformed record and bound. -/
theorem c2_malformed_witness :
    ((some ⟨2024, 0, 1⟩ : Option JsDate) ≠ none ∨ (none : Option JsDate) ≠ none) ∧
    calculateUserRewards [exBadDate] (some ⟨2024, 0, 1⟩) none =
      calculateUserRewards (List.filter dateParses [exBadDate]) (some ⟨2024, 0, 1⟩) none :=
  ⟨Or.inl (by decide), c2_malformed_excluded_with_bound [exBadDate] (some ⟨2024, 0, 1⟩) none
    (Or.inl (by decide))⟩

/-! ## C3 — the range filter -/

/-- On a well-formed calendar date the `Date` constructor normalises
nothing: the components read back are exactly the parsed triple (with the
0-based month index). -/
lemma jsDateComponents_valid (y m d : Int) (h : validParsedDate y m d) :
    jsDateComponents (some y) (some (m + -1)) (some d) =
      (some y, some (m + -1), some d) := by
  obtain ⟨hy, hm1, hm2, hd1, hd2⟩ := h
  have hnot99 : ¬ (0 ≤ y ∧ y ≤ 99) := by omega
  have hfd : (m + -1).fdiv 12 = 0 := by interval_cases m <;> decide
  have hem : (m + -1).emod 12 = m + -1 := by interval_cases m <;> decide
  have hb : borrowDown (d.natAbs + 1) y m d = (y, m, d) := by
    have hd : ¬ d < 1 := by omega
    simp [borrowDown, hd]
  have hc : carryUp (d.natAbs + 1) y m d = (y, m, d) := by
    have hd : ¬ d > daysInMonth y m := by omega
    simp [carryUp, hd]
  simp only [jsDateComponents, hnot99, if_false, hfd, hem, add_zero]
  have hmm : m + -1 + 1 = m := by ring
  rw [hmm, hb]
  simp only [hc]
  ring_nf

/-- C3: for a transaction whose date parses to a well-formed calendar
triple, the range filter passes it iff (`start` is absent or the triple is
lexicographically ≥ start's triple) and (`end` is absent or the triple is ≤
end's triple) — so a date exactly on a bound is included and both bounds
absent include everything. -/
theorem c3_range_filter_triple (start stop : Option JsDate) (t : Transaction)
    (y m d : Int) (hp : parsesToDate t.date y m d) (hv : validParsedDate y m d) :
    passesFilter start stop t = specPasses start stop y m d := by
  obtain ⟨h0, h1, h2⟩ := hp
  simp only [passesFilter, h0, h1, h2]
  have : jadd (some m) (-1) = some (m + -1) := rfl
  rw [this, jsDateComponents_valid y m d hv]
  cases start with
  | none =>
    cases stop with
    | none => rfl
    | some e =>
      apply Bool.eq_iff_iff.mpr
      simp only [specPasses, tripleLE, jlt, jeq, jle, Bool.true_and, Bool.or_eq_true,
        Bool.and_eq_true, decide_eq_true_eq, beq_iff_eq]
      constructor <;> intro h <;> omega
  | some s =>
    cases stop with
    | none =>
      apply Bool.eq_iff_iff.mpr
      simp only [specPasses, tripleLE, jgt, jeq, jge, Bool.and_true, Bool.or_eq_true,
        Bool.and_eq_true, decide_eq_true_eq, beq_iff_eq]
      constructor <;> intro h <;> omega
    | some e =>
      apply Bool.eq_iff_iff.mpr
      simp only [specPasses, tripleLE, jgt, jlt, jeq, jge, jle, Bool.or_eq_true,
        Bool.and_eq_true, decide_eq_true_eq, beq_iff_eq]
      constructor <;> intro h <;>
        [exact ⟨by omega, by omega⟩; exact ⟨by omega, by omega⟩]

/-- Witness for C3: a transaction dated exactly on the start bound
(2024-03-15, start = March 15 2024) — included. -/
theorem c3_range_filter_witness :
    parsesToDate "2024-03-15" 2024 3 15 ∧ validParsedDate 2024 3 15 ∧
    passesFilter (some ⟨2024, 2, 15⟩) none ⟨1, "A", "2024-03-15", none, 1⟩ =
      specPasses (some ⟨2024, 2, 15⟩) none 2024 3 15 :=
  ⟨⟨rfl, rfl, rfl⟩, ⟨by decide, by decide, by decide, by decide, by decide⟩,
    c3_range_filter_triple (some ⟨2024, 2, 15⟩) none ⟨1, "A", "2024-03-15", none, 1⟩
      2024 3 15 ⟨rfl, rfl, rfl⟩ ⟨by decide, by decide, by decide, by decide, by decide⟩⟩

/-! ## Shared machinery for the aggregation claims -/

/-- Membership in the deduplicated list. -/
lemma mem_firstDedupAux [DecidableEq α] :
    ∀ (l seen : List α) (x : α), x ∈ firstDedupAux seen l ↔ x ∈ l ∧ x ∉ seen := by
  intro l
  induction l with
  | nil => intro seen x; simp [firstDedupAux]
  | cons a l ih =>
    intro seen x
    by_cases ha : a ∈ seen
    · simp only [firstDedupAux, ha, if_true, ih, List.mem_cons]
      by_cases hxa : x = a
      · subst hxa; tauto
      · tauto
    · simp only [firstDedupAux, ha, if_false, List.mem_cons, ih]
      by_cases hxa : x = a
      · subst hxa; tauto
      · tauto

/-- The deduplicated list has no duplicates. -/
lemma nodup_firstDedupAux [DecidableEq α] :
    ∀ (l seen : List α), (firstDedupAux seen l).Nodup := by
  intro l
  induction l with
  | nil => intro seen; simp [firstDedupAux]
  | cons a l ih =>
    intro seen
    by_cases ha : a ∈ seen
    · simpa [firstDedupAux, ha] using ih seen
    · simp only [firstDedupAux, ha, if_false, List.nodup_cons]
      refine ⟨?_, ih _⟩
      rw [mem_firstDedupAux]
      rintro ⟨-, hns⟩
      exact hns (List.mem_cons_self a seen)

/-- Appending one element to the input extends the deduplication by that
element exactly when it is new. -/
lemma firstDedupAux_append_singleton [DecidableEq α] :
    ∀ (l seen : List α) (b : α),
      firstDedupAux seen (l ++ [b]) =
        firstDedupAux seen l ++ (if b ∈ seen ∨ b ∈ l then [] else [b]) := by
  intro l
  induction l with
  | nil =>
    intro seen b
    by_cases hb : b ∈ seen <;> simp [firstDedupAux, hb]
  | cons a l ih =>
    intro seen b
    by_cases hb : b = a
    · subst hb
      by_cases ha : b ∈ seen <;>
        simp [firstDedupAux, ha, ih, List.mem_cons]
    · by_cases ha : a ∈ seen <;> by_cases hbs : b ∈ seen <;> by_cases hbl : b ∈ l <;>
        simp [firstDedupAux, ha, ih, hb, hbs, hbl, List.mem_cons]

/-- `firstOccurrences` of a list with one element appended. -/
lemma firstOccurrences_append_singleton [DecidableEq α] (l : List α) (b : α) :
    firstOccurrences (l ++ [b]) =
      firstOccurrences l ++ (if b ∈ l then [] else [b]) := by
  unfold firstOccurrences
  rw [firstDedupAux_append_singleton]
  simp

/-- `firstOccurrences` has the same members as the input. -/
lemma mem_firstOccurrences [DecidableEq α] (l : List α) (x : α) :
    x ∈ firstOccurrences l ↔ x ∈ l := by
  unfold firstOccurrences
  rw [mem_firstDedupAux]
  simp

/-- `firstOccurrences` has no duplicates. -/
lemma nodup_firstOccurrences [DecidableEq α] (l : List α) :
    (firstOccurrences l).Nodup :=
  nodup_firstDedupAux l []

/-- `find?` looks in the left part first: a hit there survives appending. -/
lemma find?_append_of_some (p : α → Bool) :
    ∀ (l₁ l₂ : List α) (x : α), l₁.find? p = some x → (l₁ ++ l₂).find? p = some x := by
  intro l₁
  induction l₁ with
  | nil => intro l₂ x h; simp at h
  | cons a l ih =>
    intro l₂ x h
    by_cases hpa : p a
    · rw [List.find?_cons_of_pos (p := p) _ hpa] at h
      rw [List.cons_append, List.find?_cons_of_pos (p := p) _ hpa]
      exact h
    · rw [List.find?_cons_of_neg (p := p) _ hpa] at h
      rw [List.cons_append, List.find?_cons_of_neg (p := p) _ hpa]
      exact ih l₂ x h

/-- `find?` falls through to the right part when the left has no hit. -/
lemma find?_append_of_none (p : α → Bool) :
    ∀ (l₁ l₂ : List α), l₁.find? p = none → (l₁ ++ l₂).find? p = l₂.find? p := by
  intro l₁
  induction l₁ with
  | nil => intro l₂ h; rfl
  | cons a l ih =>
    intro l₂ h
    by_cases hpa : p a
    · rw [List.find?_cons_of_pos (p := p) _ hpa] at h; exact absurd h (by simp)
    · rw [List.find?_cons_of_neg (p := p) _ hpa] at h
      rw [List.cons_append, List.find?_cons_of_neg (p := p) _ hpa]
      exact ih l₂ h

/-- `findIndex` + `set`/`push` is the first-match recursive upsert. -/
lemma upsertMonthly_eq_rec (t : Transaction) :
    ∀ acc : List UserReward,
      upsertMonthly acc t = upsertRec (monthlyPred t) (newMonthly t) t.rewardPoints acc := by
  intro acc
  induction acc with
  | nil => rfl
  | cons u rest ih =>
    by_cases h : monthlyPred t u
    · simp [upsertMonthly, jsFindIndex, h, upsertRec]
    · simp only [upsertMonthly, jsFindIndex, h, Bool.false_eq_true, if_false, upsertRec]
      simp only [upsertMonthly] at ih
      cases hf : jsFindIndex (monthlyPred t) rest with
      | none => simpa [hf] using ih
      | some i =>
        rw [hf] at ih
        simpa [hf, List.set_cons_succ, List.getD] using ih

/-- Each upsert adds exactly the transaction's points to the accumulated
total. -/
lemma upsertRec_points_sum (p : UserReward → Bool) (nr : UserReward) (pts : Int)
    (hnr : nr.totalPoints = pts) :
    ∀ acc : List UserReward,
      ((upsertRec p nr pts acc).map UserReward.totalPoints).sum =
        (acc.map UserReward.totalPoints).sum + pts := by
  intro acc
  induction acc with
  | nil => simp [upsertRec, hnr]
  | cons u rest ih =>
    by_cases h : p u
    · simp only [upsertRec, h, if_true, List.map_cons, List.sum_cons, bumpPoints]
      ring
    · simp only [upsertRec, h, Bool.false_eq_true, if_false, List.map_cons, List.sum_cons, ih]
      ring

/-- The monthly reduce accumulates exactly the points of the passing
transactions. -/
lemma foldl_rewardStep_points_sum (start stop : Option JsDate) :
    ∀ (ts : List Transaction) (acc : List UserReward),
      ((ts.foldl (rewardStep start stop) acc).map UserReward.totalPoints).sum =
        (acc.map UserReward.totalPoints).sum +
          ((ts.filter (passesFilter start stop)).map Transaction.rewardPoints).sum := by
  intro ts
  induction ts with
  | nil => intro acc; simp
  | cons t ts ih =>
    intro acc
    by_cases h : passesFilter start stop t
    · simp only [List.foldl_cons, List.filter_cons, h, if_true, rewardStep, ih,
        upsertMonthly_eq_rec, upsertRec_points_sum (monthlyPred t) (newMonthly t)
          t.rewardPoints rfl, List.map_cons, List.sum_cons]
      ring
    · simp only [List.foldl_cons, List.filter_cons, h, Bool.false_eq_true, if_false,
        rewardStep, ih]

/-- `Object.entries` emits a permutation of the object's entries. -/
lemma jsEntries_perm (o : List (String × JsVal)) : List.Perm (jsEntries o) o := by
  unfold jsEntries
  exact List.Perm.trans
    (List.Perm.append
      ((o.filter fun p => (isArrayIndexKey p.1).isSome).perm_insertionSort arrIdxLe)
      (List.Perm.refl _))
    (List.filter_append_perm _ o)

/-- `upsertRec` on a list of records keyed by a duplicate-free key list:
bump the matching key's record in place, or append the fresh record. -/
lemma upsertRec_on_keyed_map (k : Int × JNum × JNum)
    (f : Int × JNum × JNum → UserReward) (nr : UserReward) (pts : Int)
    (p : UserReward → Bool) :
    ∀ ks : List (Int × JNum × JNum), ks.Nodup →
      (∀ x ∈ ks, p (f x) = decide (x = k)) →
      upsertRec p nr pts (ks.map f) =
        if k ∈ ks then ks.map (fun x => if x = k then bumpPoints pts (f x) else f x)
        else ks.map f ++ [nr] := by
  intro ks
  induction ks with
  | nil => intro _ _; simp [upsertRec]
  | cons a ks ih =>
    intro hnd hp
    have hpa := hp a (List.mem_cons_self a ks)
    by_cases hak : a = k
    · subst hak
      have hptrue : p (f a) = true := by rw [hpa]; simp
      have hnotin := (List.nodup_cons.mp hnd).1
      have hmap : List.map (fun x => if x = a then bumpPoints pts (f x) else f x) ks
          = List.map f ks :=
        List.map_congr_left fun x hx => by
          have hxa : ¬ x = a := fun he => hnotin (he ▸ hx)
          simp [hxa]
      simp [upsertRec, hptrue, hmap]
    · have hpfalse : p (f a) = false := by rw [hpa]; simp [hak]
      simp only [List.map_cons, upsertRec, hpfalse, Bool.false_eq_true, if_false]
      rw [ih (List.nodup_cons.mp hnd).2 (fun x hx => hp x (List.mem_cons_of_mem a hx))]
      by_cases hk : k ∈ ks
      · rw [if_pos hk, if_pos (List.mem_cons_of_mem a hk)]
        simp [hak]
      · rw [if_neg hk, if_neg (by
          intro hmem
          rcases List.mem_cons.mp hmem with he | he
          · exact hak he.symm
          · exact hk he)]
        simp

/-- A parseable transaction has a non-`NaN` month field. -/
lemma txMonthField_isSome (t : Transaction) (h : dateParses t = true) :
    ∃ v, txMonthField t = some v := by
  simp only [dateParses, Bool.and_eq_true] at h
  obtain ⟨⟨-, h1⟩, -⟩ := h
  obtain ⟨v, hv⟩ := Option.isSome_iff_exists.mp h1
  exact ⟨v + -1 + 1, by simp [txMonthField, hv, jadd]⟩

/-- A parseable transaction has a non-`NaN` year field. -/
lemma txYearField_isSome (t : Transaction) (h : dateParses t = true) :
    ∃ v, txYearField t = some v := by
  simp only [dateParses, Bool.and_eq_true] at h
  exact Option.isSome_iff_exists.mp h.1.1

/-- On records with non-`NaN` key fields, the `findIndex` test is exactly
key equality with the transaction's key. -/
lemma monthlyPred_eq_decide (t : Transaction) (u : UserReward)
    (hpt : dateParses t = true) (hm : u.month.isSome) (hy : u.year.isSome) :
    monthlyPred t u = decide (keyFields u = txKey t) := by
  obtain ⟨pm, hpm⟩ := Option.isSome_iff_exists.mp hm
  obtain ⟨py, hpy⟩ := Option.isSome_iff_exists.mp hy
  obtain ⟨tm, htm⟩ := txMonthField_isSome t hpt
  obtain ⟨ty, hty⟩ := txYearField_isSome t hpt
  apply Bool.eq_iff_iff.mpr
  simp [monthlyPred, keyFields, txKey, jeq, hpm, hpy, htm, hty, Prod.ext_iff, and_assoc]

/-- Keys drawn from parseable transactions have non-`NaN` components. -/
lemma key_isSome_of_mem (ts : List Transaction) (hall : ∀ x ∈ ts, dateParses x = true)
    (k : Int × JNum × JNum) (hk : k ∈ ts.map txKey) :
    k.2.1.isSome ∧ k.2.2.isSome := by
  obtain ⟨t, ht, rfl⟩ := List.mem_map.mp hk
  obtain ⟨vm, hvm⟩ := txMonthField_isSome t (hall t ht)
  obtain ⟨vy, hvy⟩ := txYearField_isSome t (hall t ht)
  exact ⟨by simp [txKey, hvm], by simp [txKey, hvy]⟩

/-- Appending a transaction adds its points to exactly its own key. -/
lemma sumPointsFor_append (ts : List Transaction) (t : Transaction)
    (k : Int × JNum × JNum) :
    sumPointsFor (ts ++ [t]) k =
      sumPointsFor ts k + (if txKey t = k then t.rewardPoints else 0) := by
  simp only [sumPointsFor, List.filter_append]
  by_cases h : txKey t = k
  · simp [h]
  · simp [h]

/-- Appending a transaction leaves the first name of every key already
present untouched. -/
lemma firstNameFor_append_of_mem (ts : List Transaction) (t : Transaction)
    (k : Int × JNum × JNum) (hk : k ∈ ts.map txKey) :
    firstNameFor (ts ++ [t]) k = firstNameFor ts k := by
  obtain ⟨x, hx, hxk⟩ := List.mem_map.mp hk
  have hsome : (ts.find? (fun x => txKey x = k)).isSome :=
    List.find?_isSome.mpr ⟨x, hx, by simp [hxk]⟩
  obtain ⟨w, hw⟩ := Option.isSome_iff_exists.mp hsome
  unfold firstNameFor
  rw [find?_append_of_some _ ts [t] w hw, hw]

/-- The spec-side grouping absorbs one appended transaction exactly as one
recursive upsert. -/
lemma monthlySpec_append (done : List Transaction) (t : Transaction)
    (hall : ∀ x ∈ done, dateParses x = true) (hpt : dateParses t = true) :
    monthlySpec (done ++ [t]) =
      upsertRec (monthlyPred t) (newMonthly t) t.rewardPoints (monthlySpec done) := by
  have hrec := upsertRec_on_keyed_map (txKey t) (monthlyRecFor done) (newMonthly t)
    t.rewardPoints (monthlyPred t) (firstOccurrences (done.map txKey))
    (nodup_firstOccurrences _)
    (by
      intro x hx
      have hx2 := (mem_firstOccurrences _ x).mp hx
      obtain ⟨hm, hy⟩ := key_isSome_of_mem done hall x hx2
      rw [monthlyPred_eq_decide t (monthlyRecFor done x) hpt (by simpa [monthlyRecFor])
        (by simpa [monthlyRecFor])]
      rfl)
  show (firstOccurrences ((done ++ [t]).map txKey)).map (monthlyRecFor (done ++ [t])) =
    upsertRec (monthlyPred t) (newMonthly t) t.rewardPoints
      ((firstOccurrences (done.map txKey)).map (monthlyRecFor done))
  rw [hrec]
  by_cases hk : txKey t ∈ done.map txKey
  · rw [if_pos ((mem_firstOccurrences _ _).mpr hk)]
    rw [List.map_append]
    simp only [List.map_cons, List.map_nil]
    rw [firstOccurrences_append_singleton, if_pos (by simpa using hk)]
    rw [List.append_nil]
    refine List.map_congr_left fun x hx => ?_
    have hxmem := (mem_firstOccurrences _ x).mp hx
    by_cases hxk : x = txKey t
    · subst hxk
      rw [if_pos rfl]
      simp only [monthlyRecFor, bumpPoints, sumPointsFor_append, if_pos rfl,
        firstNameFor_append_of_mem done t _ hxmem]
      simp
    · rw [if_neg hxk]
      have hne : ¬ txKey t = x := fun he => hxk he.symm
      simp only [monthlyRecFor, sumPointsFor_append, if_neg hne, add_zero,
        firstNameFor_append_of_mem done t _ hxmem]
  · rw [if_neg (fun hmem => hk ((mem_firstOccurrences _ _).mp hmem))]
    rw [List.map_append]
    simp only [List.map_cons, List.map_nil]
    rw [firstOccurrences_append_singleton, if_neg (by simpa using hk)]
    rw [List.map_append]
    congr 1
    · refine List.map_congr_left fun x hx => ?_
      have hxmem := (mem_firstOccurrences _ x).mp hx
      have hxk : ¬ txKey t = x := fun he => hk (he ▸ hxmem)
      simp only [monthlyRecFor, sumPointsFor_append, if_neg hxk, add_zero,
        firstNameFor_append_of_mem done t _ hxmem]
    · have hnone : done.find? (fun x => txKey x = txKey t) = none := by
        rw [List.find?_eq_none]
        intro x hx hpx
        exact hk (by
          have : txKey x = txKey t := by simpa using hpx
          exact this ▸ List.mem_map_of_mem txKey hx)
      have hzero : sumPointsFor done (txKey t) = 0 := by
        unfold sumPointsFor
        rw [List.filter_eq_nil_iff.mpr (by
          intro x hx
          simp only [decide_eq_true_eq]
          intro hpx
          exact hk (hpx ▸ List.mem_map_of_mem txKey hx))]
        rfl
      have hname : firstNameFor (done ++ [t]) (txKey t) = t.name := by
        unfold firstNameFor
        rw [find?_append_of_none _ done [t] hnone,
          List.find?_cons_of_pos (p := fun x => decide (txKey x = txKey t)) [] (by simp)]
      have hsum : sumPointsFor (done ++ [t]) (txKey t) = t.rewardPoints := by
        rw [sumPointsFor_append, hzero, if_pos rfl, zero_add]
      show [monthlyRecFor (done ++ [t]) (txKey t)] = [newMonthly t]
      rw [monthlyRecFor, hname, hsum]
      rfl

/-- The monthly reduce with only passing transactions computes the
spec-side grouping. -/
lemma foldl_upsert_monthlySpec :
    ∀ (fts done : List Transaction), (∀ x ∈ done, dateParses x = true) →
      (∀ x ∈ fts, dateParses x = true) →
      fts.foldl upsertMonthly (monthlySpec done) = monthlySpec (done ++ fts) := by
  intro fts
  induction fts with
  | nil => intro done _ _; simp
  | cons t fts ih =>
    intro done hdone hfts
    rw [List.foldl_cons, upsertMonthly_eq_rec,
      ← monthlySpec_append done t hdone (hfts t (List.mem_cons_self t fts)),
      ih (done ++ [t])
        (by
          intro x hx
          rcases List.mem_append.mp hx with hx | hx
          · exact hdone x hx
          · rw [List.mem_singleton.mp hx]; exact hfts t (List.mem_cons_self t fts))
        (fun x hx => hfts x (List.mem_cons_of_mem t hx))]
    simp

/-- The monthly reduce is the plain upsert fold over the filtered list. -/
lemma foldl_rewardStep_eq_filter (start stop : Option JsDate) :
    ∀ (ts : List Transaction) (acc : List UserReward),
      ts.foldl (rewardStep start stop) acc =
        (ts.filter (passesFilter start stop)).foldl upsertMonthly acc := by
  intro ts
  induction ts with
  | nil => intro acc; rfl
  | cons t ts ih =>
    intro acc
    by_cases h : passesFilter start stop t
    · simp only [List.foldl_cons, List.filter_cons, h, if_true, rewardStep, ih]
    · simp only [List.foldl_cons, List.filter_cons, h, Bool.false_eq_true, if_false,
        rewardStep, ih]

/-! ## C4 — monthly grouping -/

/-- C4: for parseable inputs, the monthly output is exactly the spec-side
grouping of the passing transactions — one record per distinct
`(customerId, month, year)` key in first-occurrence order, points summed,
name fixed at first occurrence — and on the §8.6 example it yields the
expected records. -/
theorem c4_monthly_grouping (ts : List Transaction) (start stop : Option JsDate)
    (hp : ∀ t ∈ ts, dateParses t = true) :
    (calculateUserRewards ts start stop).1 =
      monthlySpec (ts.filter (passesFilter start stop)) ∧
    (calculateUserRewards ex86 none none).1 =
      [⟨1, "Alice", some 1, some 2024, 15⟩, ⟨1, "Alice", some 2, some 2024, 7⟩,
       ⟨2, "Bob", some 1, some 2024, 3⟩] := by
  constructor
  · show ts.foldl (rewardStep start stop) [] = _
    rw [foldl_rewardStep_eq_filter, show ([] : List UserReward) = monthlySpec [] from rfl,
      foldl_upsert_monthlySpec (ts.filter (passesFilter start stop)) [] (by simp)
        (fun x hx => hp x (List.mem_of_mem_filter hx))]
    rfl
  · decide

/-- Witness for C4 at the §8.6 example with the unbounded range. -/
theorem c4_monthly_grouping_witness :
    (∀ t ∈ ex86, dateParses t = true) ∧
    (calculateUserRewards ex86 none none).1 =
      monthlySpec (ex86.filter (passesFilter none none)) :=
  ⟨by decide, (c4_monthly_grouping ex86 none none (by decide)).1⟩


/-! ## C5, C9 and C10 — the totals object -/

/-- A name outside `protoPropNames` inherits nothing from
`Object.prototype`. -/
lemma protoLookup_eq_none (k : String) (hk : k ∉ protoPropNames) :
    protoLookup k = none := by
  simp only [protoPropNames, List.mem_cons] at hk
  push_neg at hk
  simp [protoLookup, hk.1, hk.2]

/-- `find?` over a name-keyed entry map. -/
lemma find?_entry_map (rs : List UserReward) :
    ∀ (ns : List String) (k : String),
      (ns.map (totalsEntryFor rs)).find? (fun p => p.1 == k) =
        if k ∈ ns then some (totalsEntryFor rs k) else none := by
  intro ns
  induction ns with
  | nil => intro k; simp
  | cons n ns ih =>
    intro k
    by_cases hnk : n = k
    · simp only [List.map_cons]
      rw [List.find?_cons_of_pos (p := fun q : String × JsVal => q.1 == k) _
        (by simp [totalsEntryFor, hnk])]
      simp [totalsEntryFor, hnk, List.mem_cons]
    · simp only [List.map_cons]
      rw [List.find?_cons_of_neg (p := fun q : String × JsVal => q.1 == k) _
        (by simp [totalsEntryFor, hnk]), ih k]
      have hkn : ¬ k = n := fun he => hnk he.symm
      simp [List.mem_cons, hkn]

/-- Reading a name-keyed entry map: an own entry, or the prototype chain. -/
lemma objGet_entry_map (rs : List UserReward) (ns : List String) (k : String) :
    objGet (ns.map (totalsEntryFor rs)) k =
      if k ∈ ns then some ((totalsEntryFor rs k).2) else protoLookup k := by
  unfold objGet
  rw [find?_entry_map]
  by_cases hk : k ∈ ns
  · simp [hk]
  · simp [hk]

/-- Assignment to a present key of a name-keyed entry map replaces its
value in place. -/
lemma objSet_entry_map_mem (rs : List UserReward) (k : String) (v : JsVal)
    (ns : List String) (hk : k ∈ ns) :
    objSet (ns.map (totalsEntryFor rs)) k v =
      ns.map (fun n => if n = k then (k, v) else totalsEntryFor rs n) := by
  have hcond : ((ns.map (totalsEntryFor rs)).find? (fun p => p.1 == k)).isSome := by
    rw [find?_entry_map, if_pos hk]; rfl
  simp only [objSet, hcond, if_true, List.map_map]
  refine List.map_congr_left fun n _ => ?_
  by_cases hnk : n = k
  · simp [Function.comp_apply, totalsEntryFor, hnk]
  · simp [Function.comp_apply, totalsEntryFor, hnk]

/-- Assignment to an absent key other than `"__proto__"` appends a fresh
own entry. -/
lemma objSet_entry_map_not_mem (rs : List UserReward) (k : String) (v : JsVal)
    (ns : List String) (hk : k ∉ ns) (hkp : k ≠ "__proto__") :
    objSet (ns.map (totalsEntryFor rs)) k v = ns.map (totalsEntryFor rs) ++ [(k, v)] := by
  have hcond : (ns.map (totalsEntryFor rs)).find? (fun p => p.1 == k) = none := by
    rw [find?_entry_map, if_neg hk]
  simp [objSet, hcond, hkp]

/-- Appending one monthly record moves only its own name's sum. -/
lemma sumForName_append (done : List UserReward) (r : UserReward) (n : String) :
    sumForName (done ++ [r]) n =
      sumForName done n + (if r.name = n then r.totalPoints else 0) := by
  simp only [sumForName, List.filter_append]
  by_cases h : r.name = n
  · simp [h]
  · simp [h]

/-- A name absent from a monthly list sums to zero over it. -/
lemma sumForName_eq_zero_of_not_mem (rs : List UserReward) (n : String)
    (h : n ∉ rs.map UserReward.name) : sumForName rs n = 0 := by
  unfold sumForName
  rw [List.filter_eq_nil_iff.mpr (by
    intro u hu hpu
    exact h ((eq_of_beq hpu) ▸ List.mem_map_of_mem UserReward.name hu))]
  rfl

/-- The spec-side totals object absorbs one appended monthly record —
whose name is not an `Object.prototype` property name — exactly as one
`totalsStep`. -/
lemma totalsSpecObj_append (done : List UserReward) (r : UserReward)
    (hr : r.name ∉ protoPropNames) :
    totalsSpecObj (done ++ [r]) = totalsStep (totalsSpecObj done) r := by
  have hplook : protoLookup r.name = none := protoLookup_eq_none r.name hr
  have hrp : r.name ≠ "__proto__" := fun he => hr (by rw [he]; simp [protoPropNames])
  have hnames : (done ++ [r]).map UserReward.name =
      done.map UserReward.name ++ [r.name] := by simp
  by_cases hk : r.name ∈ done.map UserReward.name
  · have hget : objGet (totalsSpecObj done) r.name =
        some (.num (sumForName done r.name)) := by
      unfold totalsSpecObj
      rw [objGet_entry_map, if_pos ((mem_firstOccurrences _ _).mpr hk)]
      rfl
    have hstep : totalsStep (totalsSpecObj done) r =
        objSet (totalsSpecObj done) r.name
          (.num (sumForName done r.name + r.totalPoints)) := by
      unfold totalsStep
      rw [hget]
      by_cases hz : sumForName done r.name = 0
      · simp [jsTruthy, valTruthy, jsAdd, hz]
      · simp [jsTruthy, valTruthy, jsAdd, hz]
    rw [hstep]
    unfold totalsSpecObj
    rw [objSet_entry_map_mem _ _ _ _ ((mem_firstOccurrences _ _).mpr hk),
      hnames, firstOccurrences_append_singleton, if_pos hk, List.append_nil]
    refine List.map_congr_left fun n hn => ?_
    by_cases hnk : n = r.name
    · rw [if_pos hnk]
      have h2 : totalsEntryFor (done ++ [r]) n =
          (n, .num (sumForName (done ++ [r]) n)) := rfl
      rw [h2, sumForName_append, if_pos hnk.symm, hnk]
    · rw [if_neg hnk]
      have h2 : totalsEntryFor (done ++ [r]) n =
          (n, .num (sumForName (done ++ [r]) n)) := rfl
      rw [h2, sumForName_append, if_neg (fun he => hnk he.symm), add_zero]
      rfl
  · have hget : objGet (totalsSpecObj done) r.name = none := by
      unfold totalsSpecObj
      rw [objGet_entry_map, if_neg (fun hmem => hk ((mem_firstOccurrences _ _).mp hmem))]
      exact hplook
    have hzero : sumForName done r.name = 0 :=
      sumForName_eq_zero_of_not_mem done r.name hk
    have hstep : totalsStep (totalsSpecObj done) r =
        objSet (totalsSpecObj done) r.name (.num r.totalPoints) := by
      unfold totalsStep
      rw [hget]
      simp [jsTruthy]
    rw [hstep]
    unfold totalsSpecObj
    rw [objSet_entry_map_not_mem _ _ _ _
        (fun hmem => hk ((mem_firstOccurrences _ _).mp hmem)) hrp,
      hnames, firstOccurrences_append_singleton, if_neg hk, List.map_append]
    congr 1
    · refine List.map_congr_left fun n hn => ?_
      have hnmem := (mem_firstOccurrences _ n).mp hn
      have hnk : ¬ r.name = n := fun he => hk (he ▸ hnmem)
      have h2 : totalsEntryFor (done ++ [r]) n =
          (n, .num (sumForName (done ++ [r]) n)) := rfl
      rw [h2, sumForName_append, if_neg hnk, add_zero]
      rfl
    · have h2 : totalsEntryFor (done ++ [r]) r.name =
          (r.name, .num (sumForName (done ++ [r]) r.name)) := rfl
      simp only [List.map_cons, List.map_nil]
      rw [h2, sumForName_append, if_pos rfl, hzero, zero_add]

/-- The totals pass over prototype-safe names computes the spec-side
totals object. -/
lemma foldl_totalsStep_spec :
    ∀ (rs done : List UserReward), (∀ r ∈ rs, r.name ∉ protoPropNames) →
      rs.foldl totalsStep (totalsSpecObj done) = totalsSpecObj (done ++ rs) := by
  intro rs
  induction rs with
  | nil => intro done _; simp
  | cons r rs ih =>
    intro done hall
    rw [List.foldl_cons, ← totalsSpecObj_append done r (hall r (List.mem_cons_self r rs)),
      ih (done ++ [r]) (fun x hx => hall x (List.mem_cons_of_mem r hx))]
    simp

/-- The totals pass from the empty object, over prototype-safe names. -/
lemma foldl_totalsStep_from_nil (rs : List UserReward)
    (hall : ∀ r ∈ rs, r.name ∉ protoPropNames) :
    rs.foldl totalsStep [] = totalsSpecObj rs := by
  simpa using foldl_totalsStep_spec rs [] hall

/-- The keys of the spec-side totals object are the distinct names in
first-occurrence order. -/
lemma totalsSpecObj_keys (rs : List UserReward) :
    (totalsSpecObj rs).map Prod.fst = firstOccurrences (rs.map UserReward.name) := by
  unfold totalsSpecObj
  rw [List.map_map]
  exact (List.map_congr_left fun n _ => rfl).trans (List.map_id _)

/-- Reading a `TotalReward`'s name built from an entry reads the key. -/
lemma totalName_comp_mk :
    (TotalReward.name ∘ fun p : String × JsVal => TotalReward.mk p.1 p.2) = Prod.fst := rfl

/-- Summing a bump at a single key of a duplicate-free key list. -/
lemma sum_map_add_single (f : String → Int) (c : Int) (k : String) :
    ∀ ns : List String, ns.Nodup → k ∈ ns →
      (ns.map (fun n => f n + if k = n then c else 0)).sum = (ns.map f).sum + c := by
  intro ns
  induction ns with
  | nil => intro _ h; simp at h
  | cons a ns ih =>
    intro hnd hk
    have hnotin := (List.nodup_cons.mp hnd).1
    by_cases hka : k = a
    · have hmap : ns.map (fun n => f n + if k = n then c else 0) = ns.map f :=
        List.map_congr_left fun n hn => by
          have hne : ¬ k = n := fun he => hnotin ((he.symm.trans hka) ▸ hn)
          simp [hne]
      simp only [List.map_cons, List.sum_cons, if_pos hka, hmap]
      ring
    · have hk2 : k ∈ ns := by
        rcases List.mem_cons.mp hk with he | h2
        · exact absurd he hka
        · exact h2
      simp only [List.map_cons, List.sum_cons, if_neg hka, add_zero,
        ih (List.nodup_cons.mp hnd).2 hk2]
      ring

/-- The spec-side totals object conserves the monthly points. -/
lemma totalsSpecObj_values_sum (rs : List UserReward) :
    ((totalsSpecObj rs).map (fun p => jsValAsInt p.2)).sum =
      (rs.map UserReward.totalPoints).sum := by
  induction rs using List.reverseRecOn with
  | nil => rfl
  | append_singleton done r ih =>
    have hold : ((firstOccurrences (done.map UserReward.name)).map (sumForName done)).sum =
        (done.map UserReward.totalPoints).sum := by
      have h3 : (firstOccurrences (done.map UserReward.name)).map (sumForName done) =
          (totalsSpecObj done).map (fun p => jsValAsInt p.2) := by
        unfold totalsSpecObj
        rw [List.map_map]
        exact List.map_congr_left fun n _ => rfl
      rw [h3, ih]
    unfold totalsSpecObj
    rw [show (done ++ [r]).map UserReward.name = done.map UserReward.name ++ [r.name]
        by simp,
      firstOccurrences_append_singleton, List.map_map]
    by_cases hk : r.name ∈ done.map UserReward.name
    · rw [if_pos hk, List.append_nil]
      have hFk : r.name ∈ firstOccurrences (done.map UserReward.name) :=
        (mem_firstOccurrences _ _).mpr hk
      have hmapval : (firstOccurrences (done.map UserReward.name)).map
          ((fun p : String × JsVal => jsValAsInt p.2) ∘ totalsEntryFor (done ++ [r])) =
          (firstOccurrences (done.map UserReward.name)).map
            (fun n => sumForName done n + if r.name = n then r.totalPoints else 0) :=
        List.map_congr_left fun n _ => by
          simp [Function.comp_apply, totalsEntryFor, jsValAsInt, sumForName_append]
      rw [hmapval,
        sum_map_add_single (sumForName done) r.totalPoints r.name _
          (nodup_firstOccurrences _) hFk, hold]
      simp
    · rw [if_neg hk, List.map_append]
      simp only [List.map_cons, List.map_nil, List.sum_append, List.sum_cons, List.sum_nil]
      have hmapval : (firstOccurrences (done.map UserReward.name)).map
          ((fun p : String × JsVal => jsValAsInt p.2) ∘ totalsEntryFor (done ++ [r])) =
          (firstOccurrences (done.map UserReward.name)).map (sumForName done) :=
        List.map_congr_left fun n hn => by
          have hnmem := (mem_firstOccurrences _ n).mp hn
          have hne : ¬ r.name = n := fun he => hk (he ▸ hnmem)
          simp [Function.comp_apply, totalsEntryFor, jsValAsInt, sumForName_append, hne]
      have hnew : ((fun p : String × JsVal => jsValAsInt p.2) ∘
          totalsEntryFor (done ++ [r])) r.name = r.totalPoints := by
        simp [Function.comp_apply, totalsEntryFor, jsValAsInt, sumForName_append,
          sumForName_eq_zero_of_not_mem done r.name hk]
      rw [hmapval, hnew, hold]
      simp

/-- C5 counterexample: the name `"__proto__"` occurs in the monthly list,
yet the totals output has no entry for it at all — the assignment is
swallowed by the inherited accessor setter — so there is not one entry per
distinct monthly name. -/
theorem c5_counterexample :
    (calculateUserRewards exProtoName none none).1.map UserReward.name = ["__proto__"] ∧
    (calculateUserRewards exProtoName none none).2 = [] := by
  constructor
  · decide
  · decide

/-- C5 (amended): for monthly names that are not `Object.prototype`
property names, the totals output has exactly one entry per distinct name
— keyed by name, not by customer id — holding the numeric sum of the
monthly points of that name; two customers sharing such a name are merged,
as the concrete shared-name example shows. -/
theorem c5_totals_by_name (ts : List Transaction) (start stop : Option JsDate)
    (h : ∀ r ∈ (calculateUserRewards ts start stop).1, r.name ∉ protoPropNames) :
    ((calculateUserRewards ts start stop).2.map TotalReward.name).Nodup ∧
    (∀ n : String, n ∈ (calculateUserRewards ts start stop).2.map TotalReward.name ↔
      n ∈ (calculateUserRewards ts start stop).1.map UserReward.name) ∧
    (∀ r ∈ (calculateUserRewards ts start stop).2,
      r.totalPoints = JsVal.num
        (((calculateUserRewards ts start stop).1.filter
            (fun u => u.name == r.name)).map UserReward.totalPoints).sum) ∧
    (calculateUserRewards exSharedName none none).2 = [⟨"Alice", JsVal.num 15⟩] := by
  simp only [calculateUserRewards] at h ⊢
  have hobj := foldl_totalsStep_from_nil (ts.foldl (rewardStep start stop) []) h
  have hperm : List.Perm
      (jsEntries ((ts.foldl (rewardStep start stop) []).foldl totalsStep []))
      (totalsSpecObj (ts.foldl (rewardStep start stop) [])) := by
    rw [hobj]; exact jsEntries_perm _
  refine ⟨?_, ?_, ?_, ?_⟩
  · rw [List.map_map, totalName_comp_mk]
    refine (hperm.map Prod.fst).symm.nodup ?_
    rw [totalsSpecObj_keys]
    exact nodup_firstOccurrences _
  · intro n
    rw [List.map_map, totalName_comp_mk, (hperm.map Prod.fst).mem_iff,
      totalsSpecObj_keys, mem_firstOccurrences]
  · intro r hr
    obtain ⟨p, hp, rfl⟩ := List.mem_map.mp hr
    have hpmem : p ∈ totalsSpecObj (ts.foldl (rewardStep start stop) []) :=
      hperm.mem_iff.mp hp
    obtain ⟨n, hn, rfl⟩ := List.mem_map.mp hpmem
    simp [totalsEntryFor, sumForName]
  · decide

/-- Witness for C5 (amended) at the shared-name example, instantiating the
per-entry sum property at the merged `"Alice"` entry. -/
theorem c5_totals_by_name_witness :
    (∀ r ∈ (calculateUserRewards exSharedName none none).1, r.name ∉ protoPropNames) ∧
    (⟨"Alice", JsVal.num 15⟩ : TotalReward) ∈ (calculateUserRewards exSharedName none none).2 ∧
    (⟨"Alice", JsVal.num 15⟩ : TotalReward).totalPoints = JsVal.num
      (((calculateUserRewards exSharedName none none).1.filter
          (fun u => u.name == (⟨"Alice", JsVal.num 15⟩ : TotalReward).name)).map
        UserReward.totalPoints).sum :=
  ⟨by decide, by decide,
    (c5_totals_by_name exSharedName none none (by decide)).2.2.1 ⟨"Alice", JsVal.num 15⟩
      (by decide)⟩

/-- C9 (amended): when no display name is an array-index property key and
none is an `Object.prototype` property name, the totals are emitted in
first-insertion order of the distinct names of the monthly list.  (A
numeric name is reordered by `Object.entries` — see the counterexample —
and a name `"__proto__"` never appears at all.) -/
theorem c9_insertion_order_amended (ts : List Transaction) (start stop : Option JsDate)
    (h : ∀ r ∈ (calculateUserRewards ts start stop).1,
      isArrayIndexKey r.name = none ∧ r.name ∉ protoPropNames) :
    (calculateUserRewards ts start stop).2.map TotalReward.name =
      firstOccurrences ((calculateUserRewards ts start stop).1.map UserReward.name) := by
  simp only [calculateUserRewards] at h ⊢
  have hobj := foldl_totalsStep_from_nil (ts.foldl (rewardStep start stop) [])
    (fun r hr => (h r hr).2)
  have hallnone : ∀ p ∈ totalsSpecObj (ts.foldl (rewardStep start stop) []),
      isArrayIndexKey p.1 = none := by
    intro p hp
    obtain ⟨n, hn, rfl⟩ := List.mem_map.mp hp
    have hnmem := (mem_firstOccurrences _ n).mp hn
    obtain ⟨u, hu, rfl⟩ := List.mem_map.mp hnmem
    exact (h u hu).1
  have hentries : jsEntries (totalsSpecObj (ts.foldl (rewardStep start stop) [])) =
      totalsSpecObj (ts.foldl (rewardStep start stop) []) := by
    unfold jsEntries
    rw [List.filter_eq_nil_iff.mpr (fun p hp => by simp [hallnone p hp]),
      List.filter_eq_self.mpr (fun p hp => by simp [hallnone p hp])]
    simp [List.insertionSort]
  rw [hobj, hentries, List.map_map, totalName_comp_mk, totalsSpecObj_keys]

/-- Witness for C9 (amended) at the §8.6 example (names `"Alice"`,
`"Bob"`). -/
theorem c9_insertion_order_witness :
    (∀ r ∈ (calculateUserRewards ex86 none none).1,
      isArrayIndexKey r.name = none ∧ r.name ∉ protoPropNames) ∧
    (calculateUserRewards ex86 none none).2.map TotalReward.name =
      firstOccurrences ((calculateUserRewards ex86 none none).1.map UserReward.name) :=
  ⟨by decide, c9_insertion_order_amended ex86 none none (by decide)⟩

/-- C9 counterexample: with display names `"2"` then `"1"` (array-index
property keys), `Object.entries` emits the totals in ascending numeric key
order, not in first-insertion order of the names. -/
theorem c9_counterexample :
    (calculateUserRewards exNumericNames none none).1.map UserReward.name = ["2", "1"] ∧
    (calculateUserRewards exNumericNames none none).2.map TotalReward.name = ["1", "2"] := by
  constructor
  · decide
  · decide

/-! ## C10 — point conservation -/

/-- C10 counterexample: with the single monthly name `"__proto__"` the
totals output is empty — the record's 7 points are dropped between the
monthly and the total reduction, so conservation fails on the code. -/
theorem c10_counterexample :
    (calculateUserRewards exProtoName none none).2 = [] ∧
    ((calculateUserRewards exProtoName none none).1.map UserReward.totalPoints).sum = 7 ∧
    ((exProtoName.filter (passesFilter none none)).map Transaction.rewardPoints).sum = 7 := by
  refine ⟨?_, ?_, ?_⟩ <;> decide

/-- C10 (amended): when no monthly name is an `Object.prototype` property
name, every totals value is a number, the sum of the total-reward points
equals the sum of the monthly points, and that equals the sum of
`rewardPoints` over exactly the transactions passing the range filter. -/
theorem c10_point_conservation (ts : List Transaction) (start stop : Option JsDate)
    (h : ∀ r ∈ (calculateUserRewards ts start stop).1, r.name ∉ protoPropNames) :
    (∀ t ∈ (calculateUserRewards ts start stop).2, ∃ n : Int, t.totalPoints = JsVal.num n) ∧
    ((calculateUserRewards ts start stop).2.map (fun t => jsValAsInt t.totalPoints)).sum =
      ((calculateUserRewards ts start stop).1.map UserReward.totalPoints).sum ∧
    ((calculateUserRewards ts start stop).1.map UserReward.totalPoints).sum =
      ((ts.filter (passesFilter start stop)).map Transaction.rewardPoints).sum := by
  simp only [calculateUserRewards] at h ⊢
  have hobj := foldl_totalsStep_from_nil (ts.foldl (rewardStep start stop) []) h
  have hperm : List.Perm
      (jsEntries ((ts.foldl (rewardStep start stop) []).foldl totalsStep []))
      (totalsSpecObj (ts.foldl (rewardStep start stop) [])) := by
    rw [hobj]; exact jsEntries_perm _
  refine ⟨?_, ?_, ?_⟩
  · intro t ht
    obtain ⟨p, hp, rfl⟩ := List.mem_map.mp ht
    obtain ⟨n, hn, rfl⟩ := List.mem_map.mp (hperm.mem_iff.mp hp)
    exact ⟨sumForName (ts.foldl (rewardStep start stop) []) n, rfl⟩
  · rw [List.map_map]
    have h1 : ((fun t => jsValAsInt t.totalPoints) ∘
        fun p : String × JsVal => TotalReward.mk p.1 p.2) =
        (fun p : String × JsVal => jsValAsInt p.2) := rfl
    rw [h1, (hperm.map (fun p : String × JsVal => jsValAsInt p.2)).sum_eq,
      totalsSpecObj_values_sum]
  · rw [foldl_rewardStep_points_sum start stop ts []]
    simp

/-- Witness for C10 (amended) at the §8.6 example. -/
theorem c10_point_conservation_witness :
    (∀ r ∈ (calculateUserRewards ex86 none none).1, r.name ∉ protoPropNames) ∧
    ((calculateUserRewards ex86 none none).2.map (fun t => jsValAsInt t.totalPoints)).sum =
      ((calculateUserRewards ex86 none none).1.map UserReward.totalPoints).sum :=
  ⟨by decide, (c10_point_conservation ex86 none none (by decide)).2.1⟩

end RewardProgram
